import Mathlib

/-!
Shallow embedding of the difficulty / enemy-spawn engine of
`src/enemy_spawn_mgr.py` (class `EnemySpawnMgr` together with the strategy
classes `SingleEnemySpawn` and `ClusterEnemySpawn`), plus the bits of
`src/util.py` (`clamp`) it uses.

Python floats are embedded as real numbers.  Randomness is made explicit:
`random.random()` / `random.uniform(a, b)` draws are parameters `u ∈ [0, 1)`
and `pyUniform a b u = a + (b - a) * u`, which is exactly how CPython's
`random.uniform` computes its result.  Python's built-in `round` (round half
to even, returning an `int`) is `pyRound`.  The `while` loop of `spawn_all`
and the tick entry point `on_tick` become step relations (`SpawnAllRel`,
`OnTickRel`); host-level call sequences become `RunRel` over a list of
operations.  The side effects of `spawn()` (creating enemy sprites) leave the
manager's state untouched and are not modelled.
-/

noncomputable section

/-- Source `util.clamp(value, low, high)`: `low`/`high` are optional, a missing bound
is `-inf`/`inf`, the result is `min(max(value, low), high)`. -/
def clamp {α : Type} [LinearOrder α] (value : α) (low high : Option α) : α :=
  let v := match low with
    | none => value
    | some lo => max value lo
  match high with
  | none => v
  | some hi => min v hi

/-- CPython's `random.uniform(a, b)` returns `a + (b - a) * random()` where
`random() ∈ [0, 1)`; the draw `u` is made explicit. -/
def pyUniform (a b u : ℝ) : ℝ := a + (b - a) * u

/-- Python's built-in `round` on a real value: round half to even. -/
def pyRound (x : ℝ) : ℤ :=
  if Int.fract x = 1 / 2 then (if Even ⌊x⌋ then ⌊x⌋ else ⌊x⌋ + 1) else round x

/-- The two spawn-strategy variants.  `SingleEnemySpawn` stores an integer
`health` (set by `round` in `randomize`); `ClusterEnemySpawn` stores
`enemy_health_list` (its `total_health` is the list's sum, which is what
`get_cost` returns). -/
inductive EnemySpawnStrategy : Type
  | single (health : ℤ)
  | cluster (enemy_health_list : List ℝ)

/-- Source `EnemySpawnStrategy.get_cost`: `SingleEnemySpawn.get_cost` returns
`self.health`, `ClusterEnemySpawn.get_cost` returns `self.total_health`
(the sum of `enemy_health_list` computed in `randomize`). -/
def get_cost : EnemySpawnStrategy → ℝ
  | .single health => (health : ℝ)
  | .cluster enemy_health_list => enemy_health_list.sum

/-- Source `EnemySpawnMgr.base_enemy_health`: `math.sqrt(self.strength * 40)`. -/
def base_enemy_health (strength : ℝ) : ℝ :=
  Real.sqrt (strength * 40)

/-- Source `SingleEnemySpawn.randomize` (as reached from `make_random`):
`health = round(uniform(1, mean_health * 2))` with
`mean_health = spawner.base_enemy_health`;  `u` is the `uniform` draw. -/
def singleRandomize (strength : ℝ) (u : ℝ) : EnemySpawnStrategy :=
  let mean_health := base_enemy_health strength
  let health := pyUniform 1 (mean_health * 2) u
  .single (pyRound health)

/-- Source `ClusterEnemySpawn.randomize` (as reached from `make_random`); `uAmount`
is the draw behind `amount`, `uHealth i` the draw behind the `i`-th entry of
`enemy_health_list`. -/
def clusterRandomize (strength : ℝ) (uAmount : ℝ)
    (uHealth : ℕ → ℝ) : EnemySpawnStrategy :=
  let total_health := base_enemy_health strength * 2.5
  let mean_amount := strength * 3.0
  let amount : ℤ :=
    clamp (pyRound (pyUniform (mean_amount * 0.7) (mean_amount * 1.3) uAmount))
      (some 2) none
  let mean_health := total_health / (amount : ℝ)
  let health_min : ℤ := ⌊mean_health⌋ - 1
  let health_max : ℤ := ⌈mean_health⌉ + 1
  .cluster ((List.range amount.toNat).map fun i =>
    pyUniform (health_min : ℝ) (health_max : ℝ) (uHealth i))

/-- The random draws one `decide_next_enemy` call may consume: `chance` for
`random.random()`, `uSingle` for the single-health `uniform`, `uAmount` and
`uHealth` for the cluster draws. -/
structure Draws : Type where
  chance : ℝ
  uSingle : ℝ
  uAmount : ℝ
  uHealth : ℕ → ℝ

/-- Source `EnemySpawnMgr.decide_next_enemy`'s choice of the fresh strategy:
`cluster_chance = clamp(strength * 0.5, None, 0.35)`; a cluster is made
when `strength > 0.2 and random.random() < cluster_chance`, else a single. -/
def decideStrategy (strength : ℝ) (r : Draws) : EnemySpawnStrategy :=
  let cluster_chance := clamp (strength * 0.5) none (some 0.35)
  if strength > 0.2 ∧ r.chance < cluster_chance then
    clusterRandomize strength r.uAmount r.uHealth
  else
    singleRandomize strength r.uSingle

/-- The state `EnemySpawnMgr.__init__` sets up: `points`, `strength`,
`enabled`, `enable_after` and the pending `next_enemy` strategy.  Ticks are
the host's `curr_tick : int`, passed to the operations that read it. -/
structure EnemySpawnMgr : Type where
  points : ℝ
  strength : ℝ
  enabled : Bool
  enable_after : Option ℤ
  next_enemy : EnemySpawnStrategy

/-- Source `EnemySpawnMgr.__init__(game, strength=0.005, enabled=False,
start_points=0.0)`: stores the fields, sets `enable_after = None` and calls
`decide_next_enemy` once. -/
def EnemySpawnMgr.init (strength : ℝ) (enabled : Bool)
    (start_points : ℝ) (r : Draws) : EnemySpawnMgr :=
  { points := start_points
    strength := strength
    enabled := enabled
    enable_after := none
    next_enemy := decideStrategy strength r }

/-- Source `EnemySpawnMgr.decide_next_enemy`: replaces `next_enemy` with a freshly
randomized strategy chosen from the current `strength`. -/
def EnemySpawnMgr.decide_next_enemy (s : EnemySpawnMgr)
    (r : Draws) : EnemySpawnMgr :=
  { s with next_enemy := decideStrategy s.strength r }

/-- Source `EnemySpawnMgr.check_if_should_enable`: if `enable_after is not None and
curr_tick >= enable_after`, set `enabled = True`. -/
def EnemySpawnMgr.check_if_should_enable (s : EnemySpawnMgr) (curr_tick : ℤ) :
    EnemySpawnMgr :=
  match s.enable_after with
  | some a => if curr_tick ≥ a then { s with enabled := true } else s
  | none => s

/-- Source `EnemySpawnMgr.enable(delay=0)`: sets `enable_after = curr_tick + delay`
then calls `check_if_should_enable`. -/
def EnemySpawnMgr.enable (s : EnemySpawnMgr) (curr_tick delay : ℤ) :
    EnemySpawnMgr :=
  EnemySpawnMgr.check_if_should_enable { s with enable_after := some (curr_tick + delay) }
    curr_tick

/-- Source `EnemySpawnMgr.on_kill_enemy(enemy)`: if not enabled, return; else
`strength += 0.0006 + enemy.max_hp * 0.0004`. -/
def EnemySpawnMgr.on_kill_enemy (s : EnemySpawnMgr) (enemy_max_hp : ℝ) :
    EnemySpawnMgr :=
  if s.enabled then
    { s with strength := s.strength + (0.0006 + enemy_max_hp * 0.0004) }
  else s

/-- The two mutations `on_tick` performs before draining, in source order:
`points += strength` (the pre-drift strength), then `strength += 0.0001/60`. -/
def EnemySpawnMgr.tickAccrue (s : EnemySpawnMgr) : EnemySpawnMgr :=
  { s with points := s.points + s.strength, strength := s.strength + 0.0001 / 60 }

/-- Source `EnemySpawnMgr.spawn_from_obj(o)` at its only call site (`o` is
`self.next_enemy`): `o.spawn()` creates enemies externally, then
`points -= o.get_cost()` and `decide_next_enemy()`.  The `assert
self.points >= cost` holds at every use below because the loop guard of
`spawn_all` is exactly that condition. -/
def EnemySpawnMgr.spawn_from_obj (s : EnemySpawnMgr) (r : Draws) :
    EnemySpawnMgr :=
  { s with points := s.points - get_cost s.next_enemy
           next_enemy := decideStrategy s.strength r }

/-- Big-step relation of `EnemySpawnMgr.spawn_all`'s
`while self.points >= self.next_enemy.get_cost(): self.spawn_from_obj(...)`
loop; `r n` supplies the draws of the `n`-th iteration's
`decide_next_enemy`. -/
inductive SpawnAllRel : EnemySpawnMgr → (ℕ → Draws) → EnemySpawnMgr → Prop
  | exit (s : EnemySpawnMgr) (r : ℕ → Draws)
      (h : s.points < get_cost s.next_enemy) : SpawnAllRel s r s
  | step (s : EnemySpawnMgr) (r : ℕ → Draws) (s' : EnemySpawnMgr)
      (h : get_cost s.next_enemy ≤ s.points)
      (h2 : SpawnAllRel (s.spawn_from_obj (r 0)) (fun n => r (n + 1)) s') :
      SpawnAllRel s r s'

/-- Big-step relation of `EnemySpawnMgr.on_tick` at host tick `t`:
`check_if_should_enable()`; if not enabled, return; else `points += strength`,
`strength += 0.0001/60`, `spawn_all()`. -/
inductive OnTickRel (t : ℤ) : EnemySpawnMgr → (ℕ → Draws) → EnemySpawnMgr → Prop
  | stop (s : EnemySpawnMgr) (r : ℕ → Draws)
      (h : (s.check_if_should_enable t).enabled = false) :
      OnTickRel t s r (s.check_if_should_enable t)
  | go (s : EnemySpawnMgr) (r : ℕ → Draws) (s' : EnemySpawnMgr)
      (h : (s.check_if_should_enable t).enabled = true)
      (h2 : SpawnAllRel ((s.check_if_should_enable t).tickAccrue) r s') :
      OnTickRel t s r s'

/-- One host-level call into the manager. -/
inductive MgrOp : Type
  | tick (t : ℤ) (r : ℕ → Draws)
  | kill (enemy_max_hp : ℝ)
  | enable (t delay : ℤ)
  | check (t : ℤ)

/-- The state transition of one host-level call. -/
inductive StepRel : EnemySpawnMgr → MgrOp → EnemySpawnMgr → Prop
  | tick (t : ℤ) (r : ℕ → Draws) (s s' : EnemySpawnMgr)
      (h : OnTickRel t s r s') : StepRel s (.tick t r) s'
  | kill (s : EnemySpawnMgr) (h : ℝ) : StepRel s (.kill h) (s.on_kill_enemy h)
  | enable (s : EnemySpawnMgr) (t d : ℤ) : StepRel s (.enable t d) (s.enable t d)
  | check (s : EnemySpawnMgr) (t : ℤ) :
      StepRel s (.check t) (s.check_if_should_enable t)

/-- A sequence of host-level calls. -/
inductive RunRel : EnemySpawnMgr → List MgrOp → EnemySpawnMgr → Prop
  | nil (s : EnemySpawnMgr) : RunRel s [] s
  | cons (s s₁ s₂ : EnemySpawnMgr) (op : MgrOp) (ops : List MgrOp)
      (h : StepRel s op s₁) (h2 : RunRel s₁ ops s₂) : RunRel s (op :: ops) s₂

/-- The all-zeros draw record used in the concrete runs below. -/
def draws0 : Draws := ⟨0, 0, 0, fun _ => 0⟩

/-- Host calls that may happen strictly before tick `N` while waiting on the
gate: per-tick `on_tick` or bare `check_if_should_enable` calls at ticks
`< N` (no further `enable` call, no kill report). -/
def GateOpBefore (N : ℤ) : MgrOp → Prop
  | .tick t _ => t < N
  | .check t => t < N
  | _ => False

/-- An already-enabled manager state used as a concrete input below. -/
def mgrEnabledBase : EnemySpawnMgr :=
  { points := 0, strength := 0.005, enabled := true, enable_after := none
    next_enemy := .single 1 }

/-- A disabled manager state with a stocked budget, as `__init__` with
`start_points = 5` produces (see `c1state`). -/
def mgrDisabledBase : EnemySpawnMgr :=
  { points := 5, strength := 0.005, enabled := false, enable_after := none
    next_enemy := .single 1 }

/-- A reachable manager: `EnemySpawnMgr(game, start_points=5.0)` (all other
constructor arguments at their defaults) with all RNG draws zero. -/
def c1state : EnemySpawnMgr := EnemySpawnMgr.init 0.005 false 5 draws0

/-- A default-constructed manager (`strength=0.005`, disabled,
`start_points=0`) with all draws zero. -/
def c9start : EnemySpawnMgr := EnemySpawnMgr.init 0.005 false 0 draws0

/-- The state after `enable(0)`, then a kill report of max health `-100`,
then one `on_tick` at tick 1 (whose drain loop exits immediately). -/
def c9final : EnemySpawnMgr :=
  (((c9start.enable 0 0).on_kill_enemy (-100)).check_if_should_enable 1).tickAccrue

/-! ### Helper lemmas -/

theorem pyRound_ge_one {x : ℝ} (hx : 1 / 2 < x) : 1 ≤ pyRound x := by
  unfold pyRound
  have hfl : Int.fract x = 1 / 2 → 1 ≤ ⌊x⌋ := by
    intro h
    have hx' : (⌊x⌋ : ℝ) = x - 1 / 2 := by
      have := Int.floor_add_fract x
      rw [h] at this; linarith
    have : (0 : ℝ) < (⌊x⌋ : ℝ) := by rw [hx']; linarith
    exact_mod_cast Int.cast_pos.mp this
  split_ifs with h h2
  · exact hfl h
  · have := hfl h; omega
  · rw [round_eq]
    refine Int.le_floor.mpr ?_
    push_cast; linarith

theorem pyRound_one : pyRound 1 = 1 := by
  unfold pyRound
  rw [Int.fract_one]
  norm_num

theorem pyUniform_zero (a b : ℝ) : pyUniform a b 0 = a := by
  unfold pyUniform; ring

theorem decideStrategy_low (strength : ℝ) (h : ¬ strength > 0.2) (r : Draws) :
    decideStrategy strength r = singleRandomize strength r.uSingle := by
  unfold decideStrategy
  rw [if_neg]
  intro hc
  exact h hc.1

theorem singleRandomize_uzero (strength : ℝ) :
    singleRandomize strength 0 = .single 1 := by
  simp [singleRandomize, pyUniform_zero, pyRound_one]

theorem decideStrategy_default_zero :
    decideStrategy 0.005 draws0 = .single 1 := by
  rw [decideStrategy_low 0.005 (by norm_num) draws0]
  exact singleRandomize_uzero 0.005

theorem check_points (s : EnemySpawnMgr) (t : ℤ) :
    (s.check_if_should_enable t).points = s.points := by
  obtain ⟨p, σ, e, a, n⟩ := s
  cases a with
  | none => rfl
  | some a =>
    unfold EnemySpawnMgr.check_if_should_enable
    dsimp only
    split_ifs <;> rfl

theorem check_strength (s : EnemySpawnMgr) (t : ℤ) :
    (s.check_if_should_enable t).strength = s.strength := by
  obtain ⟨p, σ, e, a, n⟩ := s
  cases a with
  | none => rfl
  | some a =>
    unfold EnemySpawnMgr.check_if_should_enable
    dsimp only
    split_ifs <;> rfl

theorem check_next_enemy (s : EnemySpawnMgr) (t : ℤ) :
    (s.check_if_should_enable t).next_enemy = s.next_enemy := by
  obtain ⟨p, σ, e, a, n⟩ := s
  cases a with
  | none => rfl
  | some a =>
    unfold EnemySpawnMgr.check_if_should_enable
    dsimp only
    split_ifs <;> rfl

theorem check_enable_after (s : EnemySpawnMgr) (t : ℤ) :
    (s.check_if_should_enable t).enable_after = s.enable_after := by
  obtain ⟨p, σ, e, a, n⟩ := s
  cases a with
  | none => rfl
  | some a =>
    unfold EnemySpawnMgr.check_if_should_enable
    dsimp only
    split_ifs <;> rfl

theorem check_enabled_mono (s : EnemySpawnMgr) (t : ℤ) (h : s.enabled = true) :
    (s.check_if_should_enable t).enabled = true := by
  obtain ⟨p, σ, e, a, n⟩ := s
  cases a with
  | none => exact h
  | some a =>
    unfold EnemySpawnMgr.check_if_should_enable
    dsimp only
    split_ifs with hc
    · rfl
    · exact h

theorem check_enabled_of_lt (s : EnemySpawnMgr) (t a : ℤ)
    (ha : s.enable_after = some a) (hlt : t < a) :
    s.check_if_should_enable t = s := by
  obtain ⟨p, σ, e, a', n⟩ := s
  cases ha
  unfold EnemySpawnMgr.check_if_should_enable
  dsimp only
  rw [if_neg (not_le.mpr hlt)]

theorem check_enabled_of_ge (s : EnemySpawnMgr) (t a : ℤ)
    (ha : s.enable_after = some a) (hge : a ≤ t) :
    (s.check_if_should_enable t).enabled = true := by
  obtain ⟨p, σ, e, a', n⟩ := s
  cases ha
  unfold EnemySpawnMgr.check_if_should_enable
  dsimp only
  rw [if_pos hge]

theorem spawn_from_obj_points (s : EnemySpawnMgr) (r : Draws) :
    (s.spawn_from_obj r).points = s.points - get_cost s.next_enemy := rfl

theorem spawn_from_obj_strength (s : EnemySpawnMgr) (r : Draws) :
    (s.spawn_from_obj r).strength = s.strength := rfl

theorem spawn_from_obj_enabled (s : EnemySpawnMgr) (r : Draws) :
    (s.spawn_from_obj r).enabled = s.enabled := rfl

theorem spawn_from_obj_enable_after (s : EnemySpawnMgr) (r : Draws) :
    (s.spawn_from_obj r).enable_after = s.enable_after := rfl

theorem spawn_from_obj_next (s : EnemySpawnMgr) (r : Draws) :
    (s.spawn_from_obj r).next_enemy = decideStrategy s.strength r := rfl

/-- The `spawn_all` exit invariant: whenever the loop returns, the remaining
budget is below the fresh pending strategy's cost. -/
theorem spawnAllRel_exit_points {s : EnemySpawnMgr} {r : ℕ → Draws}
    {s' : EnemySpawnMgr} (h : SpawnAllRel s r s') :
    s'.points < get_cost s'.next_enemy := by
  induction h with
  | exit s r h => exact h
  | step s r s' h h2 ih => exact ih

theorem spawnAllRel_strength {s : EnemySpawnMgr} {r : ℕ → Draws}
    {s' : EnemySpawnMgr} (h : SpawnAllRel s r s') : s'.strength = s.strength := by
  induction h with
  | exit s r h => rfl
  | step s r s' h h2 ih => exact ih

theorem spawnAllRel_enabled {s : EnemySpawnMgr} {r : ℕ → Draws}
    {s' : EnemySpawnMgr} (h : SpawnAllRel s r s') : s'.enabled = s.enabled := by
  induction h with
  | exit s r h => rfl
  | step s r s' h h2 ih => exact ih

theorem spawnAllRel_enable_after {s : EnemySpawnMgr} {r : ℕ → Draws}
    {s' : EnemySpawnMgr} (h : SpawnAllRel s r s') :
    s'.enable_after = s.enable_after := by
  induction h with
  | exit s r h => rfl
  | step s r s' h h2 ih => exact ih

/-- Each loop iteration subtracts a cost the guard just checked is affordable,
so the budget cannot leave `[0, ∞)` inside `spawn_all`. -/
theorem spawnAllRel_points_nonneg {s : EnemySpawnMgr} {r : ℕ → Draws}
    {s' : EnemySpawnMgr} (h : SpawnAllRel s r s') (h0 : 0 ≤ s.points) :
    0 ≤ s'.points := by
  induction h with
  | exit s r h => exact h0
  | step s r s' h h2 ih =>
    refine ih ?_
    rw [spawn_from_obj_points]
    linarith

/-- Fuel-indexed termination of the drain loop: if the pending strategy and
every freshly decided one costs at least `1`, the loop finishes within
`⌈points⌉` iterations. -/
theorem spawnAll_fuel (n : ℕ) :
    ∀ (s : EnemySpawnMgr) (r : ℕ → Draws), s.points ≤ (n : ℝ) →
    1 ≤ get_cost s.next_enemy →
    (∀ k : ℕ, 1 ≤ get_cost (decideStrategy s.strength (r k))) →
    ∃ s', SpawnAllRel s r s' := by
  induction n with
  | zero =>
    intro s r hn hnext _
    exact ⟨s, .exit s r (by push_cast at hn; linarith)⟩
  | succ n ih =>
    intro s r hn hnext hdec
    by_cases hc : s.points < get_cost s.next_enemy
    · exact ⟨s, .exit s r hc⟩
    · push_neg at hc
      have h1 : (1 : ℝ) ≤ s.points := le_trans hnext hc
      obtain ⟨s', hs'⟩ := ih (s.spawn_from_obj (r 0)) (fun k => r (k + 1))
        (by rw [spawn_from_obj_points]; push_cast at hn ⊢; linarith)
        (by rw [spawn_from_obj_next]; exact hdec 0)
        (by rw [spawn_from_obj_strength]; intro k; exact hdec (k + 1))
      exact ⟨s', .step s r s' hc hs'⟩

theorem spawnAll_terminates (s : EnemySpawnMgr) (r : ℕ → Draws)
    (hnext : 1 ≤ get_cost s.next_enemy)
    (hdec : ∀ k : ℕ, 1 ≤ get_cost (decideStrategy s.strength (r k))) :
    ∃ s', SpawnAllRel s r s' := by
  obtain ⟨n, hn⟩ := exists_nat_ge s.points
  exact spawnAll_fuel n s r hn hnext hdec

theorem base_enemy_health_ge {σ : ℝ} (h : 1 / 640 ≤ σ) :
    1 / 4 ≤ base_enemy_health σ := by
  unfold base_enemy_health
  have h1 : ((1 : ℝ) / 4) ^ 2 ≤ σ * 40 := by nlinarith
  calc (1 / 4 : ℝ) = Real.sqrt ((1 / 4) ^ 2) := (Real.sqrt_sq (by norm_num)).symm
  _ ≤ Real.sqrt (σ * 40) := Real.sqrt_le_sqrt h1

/-- With `strength ≥ 1/640` the sampled single-enemy health value always
exceeds `1/2`, so it rounds to at least `1` — regardless of whether the
`uniform(1, upper)` range is inverted (`upper < 1`). -/
theorem singleHealth_ge_one {σ u : ℝ} (hσ : 1 / 640 ≤ σ) (hu0 : 0 ≤ u)
    (hu1 : u < 1) :
    1 ≤ pyRound (pyUniform 1 (base_enemy_health σ * 2) u) := by
  apply pyRound_ge_one
  have hb : (1 / 2 : ℝ) ≤ base_enemy_health σ * 2 := by
    have := base_enemy_health_ge hσ; linarith
  unfold pyUniform
  rcases le_or_lt 1 (base_enemy_health σ * 2) with h1 | h1
  · nlinarith [mul_nonneg (by linarith : (0 : ℝ) ≤ base_enemy_health σ * 2 - 1) hu0]
  · nlinarith [mul_pos (by linarith : (0 : ℝ) < 1 - base_enemy_health σ * 2)
      (by linarith : (0 : ℝ) < 1 - u)]

theorem singleRandomize_cost_ge_one {σ u : ℝ} (hσ : 1 / 640 ≤ σ) (hu0 : 0 ≤ u)
    (hu1 : u < 1) : 1 ≤ get_cost (singleRandomize σ u) := by
  have h := singleHealth_ge_one hσ hu0 hu1
  simp only [singleRandomize, get_cost]
  exact_mod_cast h

theorem tickAccrue_points (s : EnemySpawnMgr) :
    s.tickAccrue.points = s.points + s.strength := rfl

theorem tickAccrue_strength (s : EnemySpawnMgr) :
    s.tickAccrue.strength = s.strength + 0.0001 / 60 := rfl

theorem tickAccrue_enabled (s : EnemySpawnMgr) :
    s.tickAccrue.enabled = s.enabled := rfl

theorem tickAccrue_next (s : EnemySpawnMgr) :
    s.tickAccrue.next_enemy = s.next_enemy := rfl

theorem on_kill_points (s : EnemySpawnMgr) (x : ℝ) :
    (s.on_kill_enemy x).points = s.points := by
  unfold EnemySpawnMgr.on_kill_enemy
  split_ifs <;> rfl

theorem on_kill_enabled (s : EnemySpawnMgr) (x : ℝ) :
    (s.on_kill_enemy x).enabled = s.enabled := by
  unfold EnemySpawnMgr.on_kill_enemy
  split_ifs <;> rfl

theorem on_kill_disabled (s : EnemySpawnMgr) (x : ℝ) (h : s.enabled = false) :
    s.on_kill_enemy x = s := by
  unfold EnemySpawnMgr.on_kill_enemy
  rw [if_neg]
  simp [h]

theorem on_kill_enabled_eq (s : EnemySpawnMgr) (x : ℝ) (h : s.enabled = true) :
    s.on_kill_enemy x =
      { s with strength := s.strength + (0.0006 + x * 0.0004) } := by
  unfold EnemySpawnMgr.on_kill_enemy
  rw [if_pos h]

theorem enable_strength (s : EnemySpawnMgr) (t d : ℤ) :
    (s.enable t d).strength = s.strength := by
  unfold EnemySpawnMgr.enable
  rw [check_strength]

theorem enable_points (s : EnemySpawnMgr) (t d : ℤ) :
    (s.enable t d).points = s.points := by
  unfold EnemySpawnMgr.enable
  rw [check_points]

theorem enable_enable_after (s : EnemySpawnMgr) (t d : ℤ) :
    (s.enable t d).enable_after = some (t + d) := by
  unfold EnemySpawnMgr.enable
  rw [check_enable_after]

theorem enable_enabled_mono (s : EnemySpawnMgr) (t d : ℤ) (h : s.enabled = true) :
    (s.enable t d).enabled = true := by
  unfold EnemySpawnMgr.enable
  exact check_enabled_mono _ _ h

theorem enable_of_pos (s : EnemySpawnMgr) (t d : ℤ) (hd : 0 < d) :
    s.enable t d = { s with enable_after := some (t + d) } := by
  unfold EnemySpawnMgr.enable
  exact check_enabled_of_lt _ t (t + d) rfl (by omega)

theorem enable_zero_enabled (s : EnemySpawnMgr) (t : ℤ) :
    (s.enable t 0).enabled = true := by
  unfold EnemySpawnMgr.enable
  exact check_enabled_of_ge _ t (t + 0) rfl (by omega)

/-- Strength never decreases across one host-level call whose kill input (if
any) reports a non-negative max health. -/
theorem stepRel_strength_mono {s : EnemySpawnMgr} {op : MgrOp}
    {s' : EnemySpawnMgr} (h : StepRel s op s')
    (hk : ∀ x : ℝ, op = .kill x → 0 ≤ x) : s.strength ≤ s'.strength := by
  cases h with
  | tick t r s s' ht =>
    cases ht with
    | stop hstop => exact le_of_eq (check_strength s t).symm
    | go _ hgo hsp =>
      rw [spawnAllRel_strength hsp, tickAccrue_strength, check_strength]
      linarith [show (0 : ℝ) < 0.0001 / 60 by norm_num]
  | kill s x =>
    have hx : 0 ≤ x := hk x rfl
    unfold EnemySpawnMgr.on_kill_enemy
    split_ifs
    · dsimp only
      nlinarith
    · exact le_refl _
  | enable s t d => exact le_of_eq (enable_strength s t d).symm
  | check s t => exact le_of_eq (check_strength s t).symm

theorem runRel_strength_mono {s : EnemySpawnMgr} {ops : List MgrOp}
    {s' : EnemySpawnMgr} (h : RunRel s ops s')
    (hk : ∀ x : ℝ, MgrOp.kill x ∈ ops → 0 ≤ x) : s.strength ≤ s'.strength := by
  induction h with
  | nil s => exact le_refl _
  | cons s s₁ s₂ op ops h h2 ih =>
    refine le_trans (stepRel_strength_mono h ?_) (ih ?_)
    · intro x hx
      exact hk x (hx ▸ List.mem_cons_self op ops)
    · intro x hx
      exact hk x (List.mem_cons_of_mem op hx)

/-- The gate is one-way across any single host-level call. -/
theorem stepRel_enabled_mono {s : EnemySpawnMgr} {op : MgrOp}
    {s' : EnemySpawnMgr} (h : StepRel s op s') (he : s.enabled = true) :
    s'.enabled = true := by
  cases h with
  | tick t r s s' ht =>
    cases ht with
    | stop hstop => exact check_enabled_mono s t he
    | go _ hgo hsp =>
      rw [spawnAllRel_enabled hsp, tickAccrue_enabled]
      exact check_enabled_mono s t he
  | kill s x => rw [on_kill_enabled]; exact he
  | enable s t d => exact enable_enabled_mono s t d he
  | check s t => exact check_enabled_mono s t he

/-- Budget and strength stay non-negative across one host-level call whose
kill input (if any) is non-negative. -/
theorem stepRel_nonneg {s : EnemySpawnMgr} {op : MgrOp} {s' : EnemySpawnMgr}
    (h : StepRel s op s') (hp : 0 ≤ s.points) (hσ : 0 ≤ s.strength)
    (hk : ∀ x : ℝ, op = .kill x → 0 ≤ x) : 0 ≤ s'.points ∧ 0 ≤ s'.strength := by
  cases h with
  | tick t r s s' ht =>
    cases ht with
    | stop hstop => rw [check_points, check_strength]; exact ⟨hp, hσ⟩
    | go _ hgo hsp =>
      constructor
      · refine spawnAllRel_points_nonneg hsp ?_
        rw [tickAccrue_points, check_points, check_strength]
        linarith
      · rw [spawnAllRel_strength hsp, tickAccrue_strength, check_strength]
        linarith
  | kill s x =>
    have hx : 0 ≤ x := hk x rfl
    rw [on_kill_points]
    refine ⟨hp, ?_⟩
    unfold EnemySpawnMgr.on_kill_enemy
    split_ifs
    · dsimp only
      nlinarith
    · exact hσ
  | enable s t d => rw [enable_points, enable_strength]; exact ⟨hp, hσ⟩
  | check s t => rw [check_points, check_strength]; exact ⟨hp, hσ⟩

theorem runRel_nonneg {s : EnemySpawnMgr} {ops : List MgrOp}
    {s' : EnemySpawnMgr} (h : RunRel s ops s') (hp : 0 ≤ s.points)
    (hσ : 0 ≤ s.strength) (hk : ∀ x : ℝ, MgrOp.kill x ∈ ops → 0 ≤ x) :
    0 ≤ s'.points ∧ 0 ≤ s'.strength := by
  induction h with
  | nil s => exact ⟨hp, hσ⟩
  | cons s s₁ s₂ op ops h h2 ih =>
    obtain ⟨hp₁, hσ₁⟩ := stepRel_nonneg h hp hσ
      (fun x hx => hk x (hx ▸ List.mem_cons_self op ops))
    exact ih hp₁ hσ₁ (fun x hx => hk x (List.mem_cons_of_mem op hx))

/-- While the gate is pending (`enable_after = some N`, still disabled), any
run of ticks/checks at ticks `< N` leaves the gate untouched. -/
theorem stepRel_gate_keep {N : ℤ} {s : EnemySpawnMgr} {op : MgrOp}
    {s' : EnemySpawnMgr} (h : StepRel s op s') (he : s.enabled = false)
    (ha : s.enable_after = some N) (hop : GateOpBefore N op) :
    s'.enabled = false ∧ s'.enable_after = some N := by
  cases h with
  | tick t r s s' ht =>
    have hcs : s.check_if_should_enable t = s := check_enabled_of_lt s t N ha hop
    cases ht with
    | stop hstop => rw [hcs]; exact ⟨he, ha⟩
    | go _ hgo hsp =>
      rw [hcs, he] at hgo
      simp at hgo
  | kill s x =>
    rw [on_kill_disabled s x he]
    exact ⟨he, ha⟩
  | enable s t d => exact absurd hop id
  | check s t =>
    rw [check_enabled_of_lt s t N ha hop]
    exact ⟨he, ha⟩

theorem runRel_gate_keep {N : ℤ} {s : EnemySpawnMgr} {ops : List MgrOp}
    {s' : EnemySpawnMgr} (h : RunRel s ops s') (he : s.enabled = false)
    (ha : s.enable_after = some N) (hops : ∀ op ∈ ops, GateOpBefore N op) :
    s'.enabled = false ∧ s'.enable_after = some N := by
  induction h with
  | nil s => exact ⟨he, ha⟩
  | cons s s₁ s₂ op ops h h2 ih =>
    obtain ⟨he₁, ha₁⟩ := stepRel_gate_keep h he ha
      (hops op (List.mem_cons_self op ops))
    exact ih he₁ ha₁ (fun o ho => hops o (List.mem_cons_of_mem op ho))

/-! ### Claims -/

/-- C3: strength is monotonically non-decreasing — across any single
`on_tick`/`on_kill_enemy`/`enable`/`check_if_should_enable` call, and hence
across any call sequence, provided every killed enemy's max health is
non-negative. -/
theorem C3_strength_monotone :
    (∀ (s : EnemySpawnMgr) (op : MgrOp) (s' : EnemySpawnMgr), StepRel s op s' →
      (∀ x : ℝ, op = .kill x → 0 ≤ x) → s.strength ≤ s'.strength) ∧
    (∀ (s : EnemySpawnMgr) (ops : List MgrOp) (s' : EnemySpawnMgr),
      RunRel s ops s' → (∀ x : ℝ, MgrOp.kill x ∈ ops → 0 ≤ x) →
      s.strength ≤ s'.strength) :=
  ⟨fun _ _ _ h hk => stepRel_strength_mono h hk,
   fun _ _ _ h hk => runRel_strength_mono h hk⟩

theorem C3_witness :
    mgrEnabledBase.strength ≤ (mgrEnabledBase.on_kill_enemy 2).strength :=
  C3_strength_monotone.1 mgrEnabledBase (.kill 2) _ (StepRel.kill mgrEnabledBase 2)
    (fun x hx => by injection hx with h; rw [← h]; norm_num)

/-- C8: gate one-wayness — once `enabled = true`, no sequence of
`enable` / `check_if_should_enable` / `on_tick` / `on_kill_enemy` calls ever
makes it `false` again. -/
theorem C8_gate_one_way :
    ∀ (s : EnemySpawnMgr) (ops : List MgrOp) (s' : EnemySpawnMgr),
      RunRel s ops s' → s.enabled = true → s'.enabled = true := by
  intro s ops s' h he
  induction h with
  | nil s => exact he
  | cons s s₁ s₂ op ops h h2 ih => exact ih (stepRel_enabled_mono h he)

theorem C8_witness : (mgrEnabledBase.on_kill_enemy 2).enabled = true :=
  C8_gate_one_way mgrEnabledBase [.kill 2] _
    (RunRel.cons _ _ _ _ _ (StepRel.kill mgrEnabledBase 2) (RunRel.nil _)) rfl

/-- C6: while the manager stays disabled through the tick's gate check,
`on_tick` leaves `points`, `strength` and the pending strategy unchanged, and
`on_kill_enemy` on a disabled manager changes nothing at all. -/
theorem C6_frozen_when_disabled :
    (∀ (t : ℤ) (s : EnemySpawnMgr) (r : ℕ → Draws) (s' : EnemySpawnMgr),
      OnTickRel t s r s' → (s.check_if_should_enable t).enabled = false →
      s'.points = s.points ∧ s'.strength = s.strength ∧
        s'.next_enemy = s.next_enemy) ∧
    (∀ (s : EnemySpawnMgr) (x : ℝ), s.enabled = false → s.on_kill_enemy x = s) := by
  constructor
  · intro t s r s' h hd
    cases h with
    | stop hstop => exact ⟨check_points s t, check_strength s t, check_next_enemy s t⟩
    | go _ hgo hsp => rw [hd] at hgo; simp at hgo
  · exact fun s x h => on_kill_disabled s x h

theorem C6_witness :
    (mgrDisabledBase.check_if_should_enable 7).points = mgrDisabledBase.points ∧
    (mgrDisabledBase.check_if_should_enable 7).strength = mgrDisabledBase.strength ∧
    (mgrDisabledBase.check_if_should_enable 7).next_enemy = mgrDisabledBase.next_enemy :=
  C6_frozen_when_disabled.1 7 mgrDisabledBase (fun _ => draws0) _
    (OnTickRel.stop mgrDisabledBase (fun _ => draws0) rfl) rfl

/-- C5 (amended): on an **enabled** manager, each `on_kill_enemy` call adds
exactly `0.0006 + 0.0004 * max_hp` to `strength` and changes no other field;
on a disabled manager the call is a no-op (see the counterexample). -/
theorem C5_kill_feedback :
    ∀ (s : EnemySpawnMgr) (x : ℝ), s.enabled = true →
      (s.on_kill_enemy x).strength = s.strength + (0.0006 + x * 0.0004) ∧
      (s.on_kill_enemy x).points = s.points ∧
      (s.on_kill_enemy x).enabled = s.enabled ∧
      (s.on_kill_enemy x).enable_after = s.enable_after ∧
      (s.on_kill_enemy x).next_enemy = s.next_enemy := by
  intro s x h
  rw [on_kill_enabled_eq s x h]
  exact ⟨rfl, rfl, rfl, rfl, rfl⟩

theorem C5_witness :
    (mgrEnabledBase.on_kill_enemy 2).strength =
      mgrEnabledBase.strength + (0.0006 + 2 * 0.0004) ∧
    (mgrEnabledBase.on_kill_enemy 2).points = mgrEnabledBase.points ∧
    (mgrEnabledBase.on_kill_enemy 2).enabled = mgrEnabledBase.enabled ∧
    (mgrEnabledBase.on_kill_enemy 2).enable_after = mgrEnabledBase.enable_after ∧
    (mgrEnabledBase.on_kill_enemy 2).next_enemy = mgrEnabledBase.next_enemy :=
  C5_kill_feedback mgrEnabledBase 2 rfl

/-- C5 fails as stated: on a disabled manager (here: freshly constructed,
`enabled = false`), a kill report does **not** add
`0.0006 + 0.0004 * max_hp` — it changes nothing. -/
theorem C5_cex :
    (mgrDisabledBase.on_kill_enemy 2).strength ≠
      mgrDisabledBase.strength + (0.0006 + 2 * 0.0004) := by
  rw [on_kill_disabled mgrDisabledBase 2 rfl]
  norm_num [mgrDisabledBase]

/-- C7: delay correctness of the gate.  Calling `enable(D)` at tick `T` on a
not-yet-enabled manager leaves it disabled (for `D > 0`), and it stays
disabled through any run of `on_tick`/`check_if_should_enable` calls at ticks
`< T + D`, while the gate check at tick `T + D` flips it to enabled;
`enable(0)` enables within the same call. -/
theorem C7_delay_correctness :
    (∀ (s : EnemySpawnMgr) (T D : ℤ), s.enabled = false → 0 < D →
      (s.enable T D).enabled = false ∧
      ∀ (ops : List MgrOp) (s' : EnemySpawnMgr), RunRel (s.enable T D) ops s' →
        (∀ op ∈ ops, GateOpBefore (T + D) op) →
        s'.enabled = false ∧ (s'.check_if_should_enable (T + D)).enabled = true) ∧
    (∀ (s : EnemySpawnMgr) (T : ℤ), (s.enable T 0).enabled = true) := by
  constructor
  · intro s T D he hD
    have he1 : (s.enable T D).enabled = false := by
      rw [enable_of_pos s T D hD]
      exact he
    refine ⟨he1, ?_⟩
    intro ops s' hrun hops
    obtain ⟨he', ha'⟩ := runRel_gate_keep hrun he1 (enable_enable_after s T D) hops
    exact ⟨he', check_enabled_of_ge s' (T + D) (T + D) ha' le_rfl⟩
  · exact fun s T => enable_zero_enabled s T

theorem C7_witness :
    ((mgrDisabledBase.enable 100 40).check_if_should_enable 139).enabled = false ∧
    (((mgrDisabledBase.enable 100 40).check_if_should_enable 139).check_if_should_enable
      (100 + 40)).enabled = true := by
  have h := (C7_delay_correctness.1 mgrDisabledBase 100 40 rfl (by norm_num)).2
    [MgrOp.check 139] ((mgrDisabledBase.enable 100 40).check_if_should_enable 139)
    (RunRel.cons _ _ _ _ _ (StepRel.check (mgrDisabledBase.enable 100 40) 139)
      (RunRel.nil _))
    (by
      intro op hop
      rw [List.mem_singleton.mp hop]
      show (139 : ℤ) < 100 + 40
      norm_num)
  exact h

/-- C10 (implicit): a repeated `enable` call overwrites the pending
activation deadline — after `enable(d1)` at `t1` and `enable(d2)` at `t2`,
`enable_after = t2 + d2`; concretely, `enable(5)` at tick 0 would enable at
tick 5, but a second `enable(100)` at tick 1 postpones that: the tick-5 check
leaves the manager disabled and the deadline is now tick 101. -/
theorem C10_enable_overwrites :
    (∀ (s : EnemySpawnMgr) (t1 d1 t2 d2 : ℤ), t1 ≤ t2 →
      ((s.enable t1 d1).enable t2 d2).enable_after = some (t2 + d2)) ∧
    ((mgrDisabledBase.enable 0 5).check_if_should_enable 5).enabled = true ∧
    (((mgrDisabledBase.enable 0 5).enable 1 100).check_if_should_enable 5).enabled
      = false ∧
    ((mgrDisabledBase.enable 0 5).enable 1 100).enable_after = some 101 := by
  refine ⟨fun s t1 d1 t2 d2 _ => enable_enable_after (s.enable t1 d1) t2 d2, ?_, ?_, ?_⟩
  · exact check_enabled_of_ge _ 5 (0 + 5) (enable_enable_after mgrDisabledBase 0 5)
      (by norm_num)
  · have he1 : (mgrDisabledBase.enable 0 5).enabled = false := by
      rw [enable_of_pos mgrDisabledBase 0 5 (by norm_num)]
      rfl
    have he2 : ((mgrDisabledBase.enable 0 5).enable 1 100).enabled = false := by
      rw [enable_of_pos (mgrDisabledBase.enable 0 5) 1 100 (by norm_num)]
      exact he1
    rw [check_enabled_of_lt _ 5 (1 + 100)
      (enable_enable_after (mgrDisabledBase.enable 0 5) 1 100) (by norm_num)]
    exact he2
  · rw [enable_enable_after (mgrDisabledBase.enable 0 5) 1 100]
    norm_num

theorem C10_witness :
    ((mgrDisabledBase.enable 0 0).enable 1 2).enable_after = some (1 + 2) :=
  C10_enable_overwrites.1 mgrDisabledBase 0 0 1 2 (by norm_num)

theorem c1state_next : c1state.next_enemy = .single 1 := decideStrategy_default_zero

/-- C1 (amended): after any `on_tick()` call whose gate check finds the
manager enabled, `points < next_enemy.get_cost()` — the drain loop's exit
invariant.  (A disabled manager's `on_tick` returns early and need not
satisfy it; see the counterexample.) -/
theorem C1_budget_drained :
    ∀ (t : ℤ) (s : EnemySpawnMgr) (r : ℕ → Draws) (s' : EnemySpawnMgr),
      OnTickRel t s r s' → (s.check_if_should_enable t).enabled = true →
      s'.points < get_cost s'.next_enemy := by
  intro t s r s' h he
  cases h with
  | stop hstop => rw [hstop] at he; simp at he
  | go _ hgo hsp => exact spawnAllRel_exit_points hsp

/-- C1 fails as stated: the reachable state `c1state` (constructed with
`start_points = 5`, still disabled) satisfies `on_tick`, which returns
leaving `points = 5 ≥ 1 = get_cost(next_enemy)`. -/
theorem C1_cex :
    OnTickRel 100 c1state (fun _ => draws0) c1state ∧
    ¬ (c1state.points < get_cost c1state.next_enemy) := by
  constructor
  · exact OnTickRel.stop c1state (fun _ => draws0) rfl
  · rw [c1state_next]
    show ¬ ((5 : ℝ) < get_cost (.single 1))
    norm_num [get_cost]

theorem C1_witness :
    ((mgrEnabledBase.check_if_should_enable 100).tickAccrue).points <
      get_cost ((mgrEnabledBase.check_if_should_enable 100).tickAccrue).next_enemy :=
  C1_budget_drained 100 mgrEnabledBase (fun _ => draws0) _
    (OnTickRel.go _ _ _ rfl (SpawnAllRel.exit _ _ (by
      show (0 : ℝ) + 0.005 < get_cost (EnemySpawnStrategy.single 1)
      norm_num [get_cost])))
    rfl

/-- Evaluation of `pyRound` on a value in the lower half of its unit interval. -/
theorem pyRound_eval {x : ℝ} {n : ℤ} (h0 : (n : ℝ) ≤ x) (h1 : x < n + 1 / 2) :
    pyRound x = n := by
  have hf : ⌊x⌋ = n := Int.floor_eq_iff.mpr ⟨h0, by linarith⟩
  have hfr : Int.fract x ≠ 1 / 2 := by
    unfold Int.fract
    rw [hf]
    intro hh
    have : x - (n : ℝ) = 1 / 2 := hh
    linarith
  unfold pyRound
  rw [if_neg hfr, round_eq]
  exact Int.floor_eq_iff.mpr ⟨by linarith, by linarith⟩

/-- Evaluation of `pyRound` on a value strictly in the upper half of its unit interval. -/
theorem pyRound_eval_hi {x : ℝ} {n : ℤ} (h0 : (n : ℝ) + 1 / 2 < x)
    (h1 : x < n + 1) : pyRound x = n + 1 := by
  have hf : ⌊x⌋ = n := Int.floor_eq_iff.mpr ⟨by linarith, by linarith⟩
  have hfr : Int.fract x ≠ 1 / 2 := by
    unfold Int.fract
    rw [hf]
    intro hh
    have : x - (n : ℝ) = 1 / 2 := hh
    linarith
  unfold pyRound
  rw [if_neg hfr, round_eq]
  refine Int.floor_eq_iff.mpr ⟨by push_cast; linarith, by push_cast; linarith⟩

/-- At `strength = 1/1000` and draw `u = 11/12`, `SingleEnemySpawn.randomize`
samples `uniform(1, 0.4) = 0.45` (the range is inverted) and rounds it to a
health of `0`. -/
theorem single_cex_eval : singleRandomize (1 / 1000) (11 / 12) = .single 0 := by
  have hb : base_enemy_health (1 / 1000) = 1 / 5 := by
    unfold base_enemy_health
    rw [show (1 / 1000 : ℝ) * 40 = (1 / 5) ^ 2 by norm_num,
      Real.sqrt_sq (by norm_num)]
  have hu : pyUniform 1 ((1 / 5 : ℝ) * 2) (11 / 12) = 9 / 20 := by
    unfold pyUniform
    norm_num
  have hr : pyRound (9 / 20 : ℝ) = 0 := pyRound_eval (by norm_num) (by norm_num)
  simp only [singleRandomize, hb, hu, hr]

/-- At `strength = 16.9` (reachable: strength is unbounded), the cluster
randomizer can pick `amount = 66`, making `mean_health = 65/66 < 1`, hence
`health_min = -1`; with all health draws at the bottom the whole cluster has
health `-1` each and total cost `-66`. -/
theorem cluster_cex_eval :
    clusterRandomize (169 / 10) (3011 / 3042) (fun _ => 0) =
      .cluster (List.replicate 66 (-1 : ℝ)) := by
  have hb : base_enemy_health (169 / 10) = 26 := by
    unfold base_enemy_health
    rw [show (169 / 10 : ℝ) * 40 = 26 ^ 2 by norm_num, Real.sqrt_sq (by norm_num)]
  have hu : pyUniform ((169 : ℝ) / 10 * 3.0 * 0.7) ((169 : ℝ) / 10 * 3.0 * 1.3)
      (3011 / 3042) = 328 / 5 := by
    unfold pyUniform
    norm_num
  have hr : pyRound (328 / 5 : ℝ) = 66 := by
    have := pyRound_eval_hi (x := 328 / 5) (n := 65) (by norm_num) (by norm_num)
    simpa using this
  have hcl : clamp (66 : ℤ) (some 2) none = 66 := by decide
  have hm : (26 : ℝ) * 2.5 / ((66 : ℤ) : ℝ) = 65 / 66 := by
    push_cast
    norm_num
  have hfl : ⌊(65 / 66 : ℝ)⌋ = 0 := by
    rw [Int.floor_eq_zero_iff]
    constructor <;> norm_num
  have hce : ⌈(65 / 66 : ℝ)⌉ = 1 := by
    rw [Int.ceil_eq_iff]
    constructor <;> norm_num
  simp only [clusterRandomize, hb, hu, hr, hcl, hm, hfl, hce,
    show Int.toNat 66 = 66 from rfl]
  norm_num [pyUniform, List.map_const']

/-- C4 (amended): for every `strength ≥ 1/640` and any `uniform` draw in
`[0, 1)`, `SingleEnemySpawn.randomize()` produces an integer health `≥ 1`
(for smaller strengths the sampled value can fall below `1/2` and round to
`0`; see the counterexample). -/
theorem C4_single_health_floor :
    ∀ (σ u : ℝ), 1 / 640 ≤ σ → 0 ≤ u → u < 1 →
      ∃ h : ℤ, singleRandomize σ u = .single h ∧ 1 ≤ h := by
  intro σ u hσ hu0 hu1
  exact ⟨pyRound (pyUniform 1 (base_enemy_health σ * 2) u), rfl,
    singleHealth_ge_one hσ hu0 hu1⟩

/-- C4 fails as stated: `strength = 1/1000 > 0` with the valid draw
`u = 11/12` yields health `0 < 1`. -/
theorem C4_cex :
    (0 : ℝ) < 1 / 1000 ∧ (0 : ℝ) ≤ 11 / 12 ∧ (11 / 12 : ℝ) < 1 ∧
      singleRandomize (1 / 1000) (11 / 12) = .single 0 :=
  ⟨by norm_num, by norm_num, by norm_num, single_cex_eval⟩

theorem C4_witness : ∃ h : ℤ, singleRandomize 1 0 = .single h ∧ 1 ≤ h :=
  C4_single_health_floor 1 0 (by norm_num) le_rfl (by norm_num)

/-- C2 (amended): a `Single` strategy costs `≥ 1` whenever
`strength ≥ 1/640`, and on any run in which the pending strategy and every
freshly decided strategy costs `≥ 1`, the `spawn_all` drain loop terminates.
(As stated the claim is false: for `strength < 1/640` a `Single` can cost
`0`, and a `Cluster` at high strength can even have negative cost; see the
counterexample.) -/
theorem C2_cost_floor_and_termination :
    (∀ σ u : ℝ, 1 / 640 ≤ σ → 0 ≤ u → u < 1 →
      1 ≤ get_cost (singleRandomize σ u)) ∧
    (∀ (s : EnemySpawnMgr) (r : ℕ → Draws), 1 ≤ get_cost s.next_enemy →
      (∀ k : ℕ, 1 ≤ get_cost (decideStrategy s.strength (r k))) →
      ∃ s', SpawnAllRel s r s') :=
  ⟨fun _ _ hσ hu0 hu1 => singleRandomize_cost_ge_one hσ hu0 hu1,
   fun s r hnext hdec => spawnAll_terminates s r hnext hdec⟩

/-- C2 fails as stated: both variants can be produced with cost `< 1` at a
positive strength — a `Single` of health `0` at `strength = 1/1000`, and a
`Cluster` of total cost `-66` at `strength = 16.9`. -/
theorem C2_cex :
    ((0 : ℝ) < 1 / 1000 ∧ get_cost (singleRandomize (1 / 1000) (11 / 12)) < 1) ∧
    ((0 : ℝ) < 169 / 10 ∧
      get_cost (clusterRandomize (169 / 10) (3011 / 3042) (fun _ => 0)) < 1) := by
  refine ⟨⟨by norm_num, ?_⟩, ⟨by norm_num, ?_⟩⟩
  · rw [single_cex_eval]
    norm_num [get_cost]
  · rw [cluster_cex_eval]
    simp [get_cost, List.sum_replicate]
    norm_num

theorem C2_witness : 1 ≤ get_cost (singleRandomize 1 0) :=
  C2_cost_floor_and_termination.1 1 0 (by norm_num) le_rfl (by norm_num)

theorem enable_next (s : EnemySpawnMgr) (t d : ℤ) :
    (s.enable t d).next_enemy = s.next_enemy := by
  unfold EnemySpawnMgr.enable
  rw [check_next_enemy]

theorem on_kill_next (s : EnemySpawnMgr) (x : ℝ) :
    (s.on_kill_enemy x).next_enemy = s.next_enemy := by
  unfold EnemySpawnMgr.on_kill_enemy
  split_ifs <;> rfl

/-- C9 (amended): from `__init__` with `start_points ≥ 0` and non-negative
initial strength, `points ≥ 0` holds after every prefix of any call sequence
whose kill reports carry non-negative max health; an encounter is only
realized when `points ≥ cost` (the loop guard of `SpawnAllRel.step`).  As
literally stated the claim fails: a kill report with negative max health can
push `strength`, then `points`, below zero — see the counterexample. -/
theorem C9_points_nonneg :
    ∀ (σ0 : ℝ) (e : Bool) (sp : ℝ) (r : Draws) (ops : List MgrOp)
      (s' : EnemySpawnMgr), 0 ≤ sp → 0 ≤ σ0 →
      RunRel (EnemySpawnMgr.init σ0 e sp r) ops s' →
      (∀ x : ℝ, MgrOp.kill x ∈ ops → 0 ≤ x) → 0 ≤ s'.points := by
  intro σ0 e sp r ops s' hsp hσ h hk
  exact (runRel_nonneg h hsp hσ hk).1

theorem C9_witness : 0 ≤ c9start.points :=
  C9_points_nonneg 0.005 false 0 draws0 [] c9start le_rfl (by norm_num)
    (RunRel.nil c9start) (fun x hx => absurd hx (List.not_mem_nil _))

theorem c9start_points : c9start.points = 0 := rfl

theorem c9start_strength : c9start.strength = 0.005 := rfl

theorem c9start_next : c9start.next_enemy = .single 1 := decideStrategy_default_zero

theorem c9_kill_strength :
    ((c9start.enable 0 0).on_kill_enemy (-100)).strength =
      0.005 + (0.0006 + (-100) * 0.0004) := by
  rw [on_kill_enabled_eq (c9start.enable 0 0) (-100) (enable_zero_enabled c9start 0)]
  dsimp only
  rw [enable_strength, c9start_strength]

theorem c9final_points : c9final.points = 0 + (0.005 + (0.0006 + (-100) * 0.0004)) := by
  show ((((c9start.enable 0 0).on_kill_enemy (-100)).check_if_should_enable 1).tickAccrue).points = _
  rw [tickAccrue_points, check_points, check_strength, on_kill_points,
    enable_points, c9start_points, c9_kill_strength]

theorem c9final_next : c9final.next_enemy = .single 1 := by
  show ((((c9start.enable 0 0).on_kill_enemy (-100)).check_if_should_enable 1).tickAccrue).next_enemy = _
  rw [tickAccrue_next, check_next_enemy, on_kill_next, enable_next, c9start_next]

/-- C9 fails as stated: starting from the default construction with
`start_points = 0 ≥ 0`, the call sequence `enable(0)`, `on_kill_enemy` of an
enemy with max health `-100`, then one `on_tick` leaves
`points = 0.005 + 0.0006 - 0.04 < 0`. -/
theorem C9_cex :
    0 ≤ c9start.points ∧
    RunRel c9start
      [MgrOp.enable 0 0, MgrOp.kill (-100), MgrOp.tick 1 (fun _ => draws0)]
      c9final ∧
    c9final.points < 0 := by
  have h2 : ((c9start.enable 0 0).on_kill_enemy (-100)).enabled = true := by
    rw [on_kill_enabled]
    exact enable_zero_enabled c9start 0
  refine ⟨le_rfl, ?_, ?_⟩
  · refine RunRel.cons _ _ _ _ _ (StepRel.enable c9start 0 0) ?_
    refine RunRel.cons _ _ _ _ _ (StepRel.kill _ (-100)) ?_
    refine RunRel.cons _ _ _ _ _ (StepRel.tick 1 (fun _ => draws0) _ _ ?_)
      (RunRel.nil _)
    refine OnTickRel.go _ _ _ (check_enabled_mono _ 1 h2) ?_
    refine SpawnAllRel.exit _ _ ?_
    show c9final.points < get_cost c9final.next_enemy
    rw [c9final_points, c9final_next]
    norm_num [get_cost]
  · rw [c9final_points]
    norm_num
